import Mathlib

/-! Endterm exercises (year2025/endterm): hash evaluation and text sorting.

A shallow embedding of `q3.c` (candidate hash functions, `num_bits_different`,
`eval_hash`, `hash_string`) and of `q2.c` (`sort_normalized_text`), followed by
theorems about the embedded functions.

Conventions.
* `uint32_t` values are natural numbers; every arithmetic result is reduced
  modulo `2 ^ 32` where the C operation can wrap.
* `int` values are integers.
* A failing `assert(...)` aborts the call; it is the `Error.InvalidArgument`
  result of `Except`.
* `float` results: the only `float` that `eval_hash` produces is the literal
  `0.0f`, which is exactly the rational number `0`; scores are rationals.
* A C string is the list of its character codes without the terminating `0`;
  a `char` buffer is the list of the character codes it stores.
-/

set_option linter.unusedVariables false

namespace Endterm

/-! ## Assertions -/

/-- Failure kind of a call: an `assert` of the source did not hold. -/
inductive Error where
  | InvalidArgument
  deriving DecidableEq, Repr

/-- The C statement `assert(cond);`: goes on when `cond` holds, aborts otherwise. -/
def c_assert (cond : Bool) : Except Error Unit :=
  if cond then Except.ok () else Except.error Error.InvalidArgument

/-! ## q3.c: the candidate hash functions -/

/-- Source `hash0`: `return x;`. -/
def hash0 (x : Nat) : Nat := x

/-- Source `hash1`: `return a * x + b;` in `uint32_t` arithmetic. -/
def hash1 (x : Nat) : Nat :=
  let a := 1664525
  let b := 1013904223
  (a * x + b) % 2 ^ 32

/-- Source `hash2`: two mixing rounds over the two 16-bit halves of `x`. -/
def hash2 (x : Nat) : Nat :=
  let a := 1664525
  let b := 1013904223
  let x0 := x &&& 65535
  let x1 := (x >>> 16) &&& 65535
  let hash := 0
  let hash := (a * (hash ^^^ x0) + b) % 2 ^ 32
  let hash := (a * (hash ^^^ x1) + b) % 2 ^ 32
  hash

/-- Source `hash3`: four mixing rounds over the four bytes of `x`. -/
def hash3 (x : Nat) : Nat :=
  let a := 1664525
  let b := 1013904223
  let x0 := x &&& 255
  let x1 := (x >>> 8) &&& 255
  let x2 := (x >>> 16) &&& 255
  let x3 := (x >>> 24) &&& 255
  let hash := 0
  let hash := (a * (hash ^^^ x0) + b) % 2 ^ 32
  let hash := (a * (hash ^^^ x1) + b) % 2 ^ 32
  let hash := (a * (hash ^^^ x2) + b) % 2 ^ 32
  let hash := (a * (hash ^^^ x3) + b) % 2 ^ 32
  hash

/-- Source `hash4`: `return x * (x + 1013904223);` in `uint32_t` arithmetic. -/
def hash4 (x : Nat) : Nat :=
  (x * ((x + 1013904223) % 2 ^ 32)) % 2 ^ 32

/-- Source `hash5`: four multiply-xor rounds over the four bytes of `x`. -/
def hash5 (x : Nat) : Nat :=
  let a := 16777619
  let b := 2166136261
  let x0 := x &&& 255
  let x1 := (x >>> 8) &&& 255
  let x2 := (x >>> 16) &&& 255
  let x3 := (x >>> 24) &&& 255
  let hash := b
  let hash := (a * (hash ^^^ x0)) % 2 ^ 32
  let hash := (a * (hash ^^^ x1)) % 2 ^ 32
  let hash := (a * (hash ^^^ x2)) % 2 ^ 32
  let hash := (a * (hash ^^^ x3)) % 2 ^ 32
  hash

/-! ## q3.c: `num_bits_different`, `eval_hash`, `hash_string` -/

/-- Source `num_bits_different`: the assertion on `nbits`, then `return 0;`
(the body after the assertion is the source's placeholder). -/
def num_bits_different (a b : Nat) (nbits : Int) : Except Error Int := do
  c_assert (decide (nbits > 0 ∧ nbits ≤ 24))
  return 0

/-- Outcome of a call that receives a hash function pointer: the arguments at
which the pointer was invoked, in call order, and the result of the call. -/
structure HashRun (α : Type) where
  calls : List Nat
  result : Except Error α

/-- Source `eval_hash`: `assert(xfrom < xto)`, then the assertion on `nbits`,
then `return 0.0f;`. The body never invokes `hash`, so no call is recorded. -/
def eval_hash (hash : Nat → Nat) (xfrom xto : Nat) (nbits : Int) : HashRun ℚ :=
  if ¬ (xfrom < xto) then
    { calls := [], result := Except.error Error.InvalidArgument }
  else if ¬ (nbits > 0 ∧ nbits ≤ 24) then
    { calls := [], result := Except.error Error.InvalidArgument }
  else
    { calls := [], result := Except.ok 0 }

/-- Source `hash_string`: `return 0;` for every string. -/
def hash_string (str : List Nat) : Nat := 0

/-! ## q2.c: `sort_normalized_text` -/

/-- Source `sort_normalized_text_precond`: `return true;`. -/
def sort_normalized_text_precond (input output : List Nat) (output_len : Nat) : Bool :=
  true

/-- Source `sort_normalized_text_postcond`: `return true;`. -/
def sort_normalized_text_postcond (input output : List Nat) (output_len : Nat) : Bool :=
  true

/-- Source `sort_normalized_text`: asserts the precondition, writes nothing,
asserts the postcondition. The result is the content of the output buffer
after the call. -/
def sort_normalized_text (input output : List Nat) (output_len : Nat) :
    Except Error (List Nat) := do
  c_assert (sort_normalized_text_precond input output output_len)
  c_assert (sort_normalized_text_postcond input output output_len)
  return output

/-! ## utils.c: `hash_int` -/

/-- Object representation of a `uint32_t` in little-endian memory order: the
four bytes of `x`, lowest address first, least significant byte first. -/
def uint32_bytes_le (x : Nat) : List Nat :=
  [x % 256, x / 256 % 256, x / 65536 % 256, x / 16777216 % 256]

/-- Object representation of a `uint32_t` in big-endian memory order: the four
bytes of `x`, lowest address first, most significant byte first. -/
def uint32_bytes_be (x : Nat) : List Nat :=
  [x / 16777216 % 256, x / 65536 % 256, x / 256 % 256, x % 256]

/-- Source `hash_int`: `xs = (const uint8_t *)&x` views the four bytes of `x` in
memory, and four mixing rounds run over `xs[0]`, `xs[1]`, `xs[2]`, `xs[3]`. The
byte order of the machine, which the C source leaves to the platform, is the
parameter `object_bytes`. -/
def hash_int (object_bytes : Nat → List Nat) (x : Nat) : Nat :=
  let a := 1664525
  let b := 1013904223
  let xs := object_bytes x
  let hash := 0
  let hash := (a * (hash ^^^ xs.getD 0 0) + b) % 2 ^ 32
  let hash := (a * (hash ^^^ xs.getD 1 0) + b) % 2 ^ 32
  let hash := (a * (hash ^^^ xs.getD 2 0) + b) % 2 ^ 32
  let hash := (a * (hash ^^^ xs.getD 3 0) + b) % 2 ^ 32
  hash

/-! ## Vocabulary of the specification -/

/-- Population count of a `uint32_t`: the number of set bits among its 32
bit positions. -/
def popcount (n : Nat) : Nat :=
  (List.range 32).countP (fun i => Nat.testBit n i)

/-- Bitwise complement `~a` of a `uint32_t`. -/
def complement32 (a : Nat) : Nat := 2 ^ 32 - 1 - a % 2 ^ 32

/-- Specification of the bit difference, in the words of the contract:
the population count of `(a XOR b) AND (2 ^ nbits - 1)`. -/
def BitDifference_spec (a b : Nat) (nbits : Nat) : Nat :=
  popcount ((a ^^^ b) &&& (2 ^ nbits - 1))

/-- The string a `char` buffer holds: its content up to the first `0`. -/
def c_string (buf : List Nat) : List Nat := buf.takeWhile (fun c => c != 0)

/-- A character of normalized text: a space or a lowercase letter. -/
def is_normalized (c : Nat) : Prop := c = 32 ∨ (97 ≤ c ∧ c ≤ 122)

/-- Candidate inverse of `hash1` modulo `2^32`: subtract the increment, then
multiply by `4276115653`, the inverse of the multiplier `1664525` modulo `2^32`. -/
def hash1_inv (z : Nat) : Nat :=
  (4276115653 * (z + (2 ^ 32 - 1013904223))) % 2 ^ 32

/-- The four bytes of a 32-bit value, least significant first. -/
def bytes_lsb_first (x : Nat) : List Nat :=
  [x &&& 255, (x >>> 8) &&& 255, (x >>> 16) &&& 255, (x >>> 24) &&& 255]

/-- One step of 32-bit FNV-1a: `h -> ((h XOR byte) * 16777619) mod 2^32`. -/
def fnv1a_step (h byte : Nat) : Nat := ((h ^^^ byte) * 16777619) % 2 ^ 32

/-- Specification of `hash5`: 32-bit FNV-1a, the left fold of `fnv1a_step`
over the bytes of `x` from the offset basis `2166136261`. -/
def hash5_spec (x : Nat) : Nat :=
  List.foldl fnv1a_step 2166136261 (bytes_lsb_first x)

/-- One mixing step of the linear congruential construction:
`h -> (1664525 * (h XOR byte) + 1013904223) mod 2^32`. -/
def lcg_step (h byte : Nat) : Nat := (1664525 * (h ^^^ byte) + 1013904223) % 2 ^ 32

/-- Specification of `hash3`: the left fold of `lcg_step` over the bytes of `x`
from `0`. -/
def hash3_spec (x : Nat) : Nat :=
  List.foldl lcg_step 0 (bytes_lsb_first x)

/-! ## Evaluation lemmas -/

theorem c_assert_true : c_assert true = Except.ok () := rfl

theorem c_assert_false : c_assert false = Except.error Error.InvalidArgument := rfl

theorem num_bits_different_of_valid (a b : Nat) (nbits : Int)
    (h : nbits > 0 ∧ nbits ≤ 24) : num_bits_different a b nbits = Except.ok 0 := by
  unfold num_bits_different
  rw [decide_eq_true h, c_assert_true]
  rfl

theorem num_bits_different_of_invalid (a b : Nat) (nbits : Int)
    (h : ¬ (nbits > 0 ∧ nbits ≤ 24)) :
    num_bits_different a b nbits = Except.error Error.InvalidArgument := by
  unfold num_bits_different
  rw [decide_eq_false h, c_assert_false]
  rfl

theorem eval_hash_of_valid (hash : Nat → Nat) (xfrom xto : Nat) (nbits : Int)
    (hx : xfrom < xto) (h : nbits > 0 ∧ nbits ≤ 24) :
    eval_hash hash xfrom xto nbits = { calls := [], result := Except.ok 0 } := by
  unfold eval_hash
  rw [if_neg (not_not.mpr hx), if_neg (not_not.mpr h)]

theorem eval_hash_of_invalid (hash : Nat → Nat) (xfrom xto : Nat) (nbits : Int)
    (h : ¬ xfrom < xto ∨ ¬ (nbits > 0 ∧ nbits ≤ 24)) :
    eval_hash hash xfrom xto nbits =
      { calls := [], result := Except.error Error.InvalidArgument } := by
  unfold eval_hash
  by_cases hx : xfrom < xto
  · rcases h with h | h
    · exact absurd hx h
    · rw [if_neg (not_not.mpr hx), if_pos h]
  · rw [if_pos hx]

/-! ## Bit-level lemmas -/

theorem and_255_eq_mod (x : Nat) : x &&& 255 = x % 256 :=
  Nat.and_pow_two_sub_one_eq_mod x 8

theorem xor_succ_of_even (x : Nat) (h : x % 2 = 0) : x ^^^ (x + 1) = 1 := by
  apply Nat.eq_of_testBit_eq
  intro i
  rw [Nat.testBit_xor]
  cases i with
  | zero =>
    simp only [Nat.testBit_zero]
    have h1 : (x + 1) % 2 = 1 := by omega
    simp [h, h1]
  | succ j =>
    rw [Nat.testBit_succ, Nat.testBit_succ, Nat.testBit_succ]
    have h1 : (x + 1) / 2 = x / 2 := by omega
    rw [h1]
    simp

theorem xor_succ_testBit_one_of_odd (x : Nat) (hx : x < 2 ^ 32) (hodd : ¬ x % 2 = 0) :
    (x ^^^ ((x + 1) % 2 ^ 32)).testBit 1 = true := by
  rw [Nat.testBit_xor, Nat.testBit_succ, Nat.testBit_succ, Nat.testBit_zero,
    Nat.testBit_zero]
  by_cases hw : x + 1 < 2 ^ 32
  · rw [Nat.mod_eq_of_lt hw]
    by_cases ha : x / 2 % 2 = 1 <;> by_cases hb : (x + 1) / 2 % 2 = 1 <;>
      simp [ha, hb] <;> omega
  · have hx' : x = 2 ^ 32 - 1 := by omega
    subst hx'
    decide

/-! ## Theorems: `num_bits_different` -/

/-- C1 (evaluation of the code at the failing input): `num_bits_different(0b1010,
0b0110, 4)` returns `0`, while the population count of
`(0b1010 XOR 0b0110) AND (2^4 - 1)` that the contract asks for is `2`. -/
theorem num_bits_different_example_returns_zero :
    (10 : Nat) < 2 ^ 32 ∧ (6 : Nat) < 2 ^ 32 ∧
    BitDifference_spec 10 6 4 = 2 ∧
    num_bits_different 10 6 4 = Except.ok 0 ∧
    num_bits_different 10 6 4 ≠ Except.ok 2 := by
  refine ⟨by norm_num, by norm_num, by decide, rfl, ?_⟩
  intro h
  rw [show num_bits_different 10 6 4 = Except.ok 0 from rfl] at h
  exact absurd (Except.ok.inj h) (by decide)

/-- C2 (evaluation of the code at the failing input): for `a = 0` and
`nbits = 1` the value and its complement differ in the one considered bit,
yet `num_bits_different(a, ~a, 1)` returns `0`, not `nbits = 1`. -/
theorem num_bits_different_complement_returns_zero :
    complement32 0 = 4294967295 ∧
    BitDifference_spec 0 (complement32 0) 1 = 1 ∧
    num_bits_different 0 (complement32 0) 1 = Except.ok 0 ∧
    num_bits_different 0 (complement32 0) 1 ≠ Except.ok 1 := by
  refine ⟨by decide, by decide, rfl, ?_⟩
  intro h
  rw [show num_bits_different 0 (complement32 0) 1 = Except.ok 0 from rfl] at h
  exact absurd (Except.ok.inj h) (by decide)

/-- C4: `num_bits_different` fails with `InvalidArgument` exactly when `nbits`
is outside `[1, 24]`, and for 32-bit `a`, `b` and `nbits` inside `[1, 24]` it
returns a value. -/
theorem num_bits_different_fails_iff (a b : Nat) (nbits : Int)
    (ha : a < 2 ^ 32) (hb : b < 2 ^ 32) :
    (num_bits_different a b nbits = Except.error Error.InvalidArgument ↔
        (nbits < 1 ∨ 24 < nbits)) ∧
    (1 ≤ nbits → nbits ≤ 24 → ∃ v, num_bits_different a b nbits = Except.ok v) := by
  constructor
  · constructor
    · intro h
      by_contra hn
      have hv : nbits > 0 ∧ nbits ≤ 24 := by omega
      rw [num_bits_different_of_valid a b nbits hv] at h
      cases h
    · intro h
      exact num_bits_different_of_invalid a b nbits (by omega)
  · intro h1 h2
    exact ⟨0, num_bits_different_of_valid a b nbits ⟨by omega, h2⟩⟩

theorem num_bits_different_fails_iff_witness :
    (5 : Nat) < 2 ^ 32 ∧ (9 : Nat) < 2 ^ 32 ∧
    (num_bits_different 5 9 25 = Except.error Error.InvalidArgument ↔
        ((25 : Int) < 1 ∨ (24 : Int) < 25)) ∧
    ((1 : Int) ≤ 25 → (25 : Int) ≤ 24 →
        ∃ v, num_bits_different 5 9 25 = Except.ok v) :=
  ⟨by norm_num, by norm_num,
    num_bits_different_fails_iff 5 9 25 (by norm_num) (by norm_num)⟩

/-- C7: for 32-bit `a`, `b` and `nbits` in `[1, 24]`, `num_bits_different(a, b,
nbits)` and `num_bits_different(b, a, nbits)` return the same value. -/
theorem num_bits_different_symm (a b : Nat) (nbits : Int)
    (ha : a < 2 ^ 32) (hb : b < 2 ^ 32) (h1 : 1 ≤ nbits) (h24 : nbits ≤ 24) :
    ∃ v, num_bits_different a b nbits = Except.ok v ∧
      num_bits_different b a nbits = Except.ok v :=
  ⟨0, num_bits_different_of_valid a b nbits ⟨by omega, h24⟩,
    num_bits_different_of_valid b a nbits ⟨by omega, h24⟩⟩

theorem num_bits_different_symm_witness :
    (10 : Nat) < 2 ^ 32 ∧ (6 : Nat) < 2 ^ 32 ∧ (1 : Int) ≤ 4 ∧ (4 : Int) ≤ 24 ∧
    ∃ v, num_bits_different 10 6 4 = Except.ok v ∧
      num_bits_different 6 10 4 = Except.ok v :=
  ⟨by norm_num, by norm_num, by norm_num, by norm_num,
    num_bits_different_symm 10 6 4 (by norm_num) (by norm_num) (by norm_num) (by norm_num)⟩

/-- C8: for a 32-bit `a` and `nbits` in `[1, 24]`, `num_bits_different(a, a,
nbits)` returns `0`. -/
theorem num_bits_different_self (a : Nat) (nbits : Int)
    (ha : a < 2 ^ 32) (h1 : 1 ≤ nbits) (h24 : nbits ≤ 24) :
    num_bits_different a a nbits = Except.ok 0 :=
  num_bits_different_of_valid a a nbits ⟨by omega, h24⟩

theorem num_bits_different_self_witness :
    (12345 : Nat) < 2 ^ 32 ∧ (1 : Int) ≤ 24 ∧ (24 : Int) ≤ 24 ∧
    num_bits_different 12345 12345 24 = Except.ok 0 :=
  ⟨by norm_num, by norm_num, by norm_num,
    num_bits_different_self 12345 24 (by norm_num) (by norm_num) (by norm_num)⟩

/-! ## Theorems: `eval_hash` -/

/-- C3: `eval_hash` fails with `InvalidArgument` exactly when `xfrom >= xto` or
`nbits` is outside `[1, 24]`; a failing call has invoked the hash function on no
input; and for every hash function, `xfrom < xto` and `nbits` in `[1, 24]` it
returns a value. -/
theorem eval_hash_fails_iff (hash : Nat → Nat) (xfrom xto : Nat) (nbits : Int)
    (hfrom : xfrom < 2 ^ 32) (hto : xto < 2 ^ 32) :
    ((eval_hash hash xfrom xto nbits).result = Except.error Error.InvalidArgument ↔
        (xfrom ≥ xto ∨ nbits < 1 ∨ 24 < nbits)) ∧
    ((eval_hash hash xfrom xto nbits).result = Except.error Error.InvalidArgument →
        (eval_hash hash xfrom xto nbits).calls = []) ∧
    (xfrom < xto → 1 ≤ nbits → nbits ≤ 24 →
        ∃ v, (eval_hash hash xfrom xto nbits).result = Except.ok v) := by
  refine ⟨⟨?_, ?_⟩, ?_, ?_⟩
  · intro h
    by_contra hn
    have hx : xfrom < xto := by omega
    have hv : nbits > 0 ∧ nbits ≤ 24 := by omega
    rw [eval_hash_of_valid hash xfrom xto nbits hx hv] at h
    cases h
  · intro h
    have hi : ¬ xfrom < xto ∨ ¬ (nbits > 0 ∧ nbits ≤ 24) := by
      rcases h with h | h
      · exact Or.inl (by omega)
      · exact Or.inr (by omega)
    rw [eval_hash_of_invalid hash xfrom xto nbits hi]
  · intro h
    by_cases hv : xfrom < xto ∧ (nbits > 0 ∧ nbits ≤ 24)
    · rw [eval_hash_of_valid hash xfrom xto nbits hv.1 hv.2]
    · rw [eval_hash_of_invalid hash xfrom xto nbits (by tauto)]
  · intro hx h1 h24
    exact ⟨0, by rw [eval_hash_of_valid hash xfrom xto nbits hx ⟨by omega, h24⟩]⟩

theorem eval_hash_fails_iff_witness :
    (1000000 : Nat) < 2 ^ 32 ∧ (100 : Nat) < 2 ^ 32 ∧
    (eval_hash hash1 1000000 100 16).result = Except.error Error.InvalidArgument ∧
    (eval_hash hash1 1000000 100 16).calls = [] :=
  have h := eval_hash_fails_iff hash1 1000000 100 16 (by norm_num) (by norm_num)
  have hfail := h.1.2 (Or.inl (by norm_num))
  ⟨by norm_num, by norm_num, hfail, h.2.1 hfail⟩

/-- C9: for every hash function, 32-bit `xfrom < xto` and `nbits` in `[1, 24]`,
`eval_hash` returns a score, and the score is non-negative. -/
theorem eval_hash_score_nonneg (hash : Nat → Nat) (xfrom xto : Nat) (nbits : Int)
    (hfrom : xfrom < 2 ^ 32) (hto : xto < 2 ^ 32)
    (hx : xfrom < xto) (h1 : 1 ≤ nbits) (h24 : nbits ≤ 24) :
    ∃ score, (eval_hash hash xfrom xto nbits).result = Except.ok score ∧ 0 ≤ score :=
  ⟨0, by rw [eval_hash_of_valid hash xfrom xto nbits hx ⟨by omega, h24⟩], le_refl 0⟩

theorem eval_hash_score_nonneg_witness :
    (100 : Nat) < 2 ^ 32 ∧ (1000000 : Nat) < 2 ^ 32 ∧ (100 : Nat) < 1000000 ∧
    (1 : Int) ≤ 16 ∧ (16 : Int) ≤ 24 ∧
    ∃ score, (eval_hash hash1 100 1000000 16).result = Except.ok score ∧ 0 ≤ score :=
  ⟨by norm_num, by norm_num, by norm_num, by norm_num, by norm_num,
    eval_hash_score_nonneg hash1 100 1000000 16 (by norm_num) (by norm_num)
      (by norm_num) (by norm_num) (by norm_num)⟩

/-- C5 (evaluation of the code at the failing input): over `[100, 1000000)` with
16 bits `eval_hash` returns the score `0` for `hash0`, for `hash1` and for
`hash3` alike, so the score of `hash0` is strictly higher than neither. -/
theorem eval_hash_same_score_for_all_hashes :
    (eval_hash hash0 100 1000000 16).result = Except.ok 0 ∧
    (eval_hash hash1 100 1000000 16).result = Except.ok 0 ∧
    (eval_hash hash3 100 1000000 16).result = Except.ok 0 ∧
    (¬ ∃ s0 s1, (eval_hash hash0 100 1000000 16).result = Except.ok s0 ∧
        (eval_hash hash1 100 1000000 16).result = Except.ok s1 ∧ s0 > s1) ∧
    (¬ ∃ s0 s3, (eval_hash hash0 100 1000000 16).result = Except.ok s0 ∧
        (eval_hash hash3 100 1000000 16).result = Except.ok s3 ∧ s0 > s3) := by
  have hv : (16 : Int) > 0 ∧ (16 : Int) ≤ 24 := by norm_num
  have hx : (100 : Nat) < 1000000 := by norm_num
  have e0 := eval_hash_of_valid hash0 100 1000000 16 hx hv
  have e1 := eval_hash_of_valid hash1 100 1000000 16 hx hv
  have e3 := eval_hash_of_valid hash3 100 1000000 16 hx hv
  refine ⟨by rw [e0], by rw [e1], by rw [e3], ?_, ?_⟩
  · rintro ⟨s0, s1, h0, h1, hlt⟩
    rw [e0] at h0
    rw [e1] at h1
    have a0 : (0 : ℚ) = s0 := Except.ok.inj h0
    have a1 : (0 : ℚ) = s1 := Except.ok.inj h1
    rw [← a0, ← a1] at hlt
    exact lt_irrefl 0 hlt
  · rintro ⟨s0, s3, h0, h3, hlt⟩
    rw [e0] at h0
    rw [e3] at h3
    have a0 : (0 : ℚ) = s0 := Except.ok.inj h0
    have a3 : (0 : ℚ) = s3 := Except.ok.inj h3
    rw [← a0, ← a3] at hlt
    exact lt_irrefl 0 hlt

/-! ## Theorems: `hash_string` -/

/-- C6 (evaluation of the code at the failing input): `hash_string` returns `0`
for "abc", "abd" and "cba", so it tells none of them apart. -/
theorem hash_string_collides :
    ([97, 98, 99] : List Nat) ≠ [97, 98, 100] ∧
    ([97, 98, 99] : List Nat) ≠ [99, 98, 97] ∧
    hash_string [97, 98, 99] = 0 ∧
    hash_string [97, 98, 99] = hash_string [97, 98, 100] ∧
    hash_string [97, 98, 99] = hash_string [99, 98, 97] :=
  ⟨by decide, by decide, rfl, rfl, rfl⟩

/-! ## Theorems: `sort_normalized_text` -/

/-- C10 (evaluation of the code at the failing input): for the input "ba" and a
zero-filled output buffer of 3 bytes, `sort_normalized_text` leaves the buffer
as it was; the buffer then holds the empty string, and neither that string nor
the first two bytes of the buffer are a permutation of the input. With the
buffer holding "ba" beforehand it still holds "ba" afterwards, which is not in
non-decreasing order. -/
theorem sort_normalized_text_leaves_output :
    (∀ c ∈ ([98, 97] : List Nat), is_normalized c) ∧
    sort_normalized_text [98, 97] [0, 0, 0] 3 = Except.ok [0, 0, 0] ∧
    ¬ List.Perm (c_string [0, 0, 0]) [98, 97] ∧
    ¬ List.Perm (List.take 2 [0, 0, 0]) [98, 97] ∧
    sort_normalized_text [98, 97] [98, 97, 0] 3 = Except.ok [98, 97, 0] ∧
    c_string [98, 97, 0] = [98, 97] ∧
    ¬ List.Sorted (fun x y => x ≤ y) (c_string [98, 97, 0]) := by
  refine ⟨?_, rfl, by decide, by decide, rfl, by decide, by decide⟩
  intro c hc
  simp only [List.mem_cons, List.mem_singleton, List.not_mem_nil, or_false] at hc
  rcases hc with rfl | rfl
  · exact Or.inr ⟨by norm_num, by norm_num⟩
  · exact Or.inr ⟨by norm_num, by norm_num⟩

/-! ## Theorems: the candidate hash functions -/

/-- C11 (counterexample): for `x = 1` the hashes `hash0(1) = 1` and
`hash0(2) = 2` differ in two bits, `hash0(1) XOR hash0(2) = 3`, not `1`. -/
theorem hash0_incr_flips_two_bits_at_one :
    (1 : Nat) < 2 ^ 32 ∧
    hash0 1 ^^^ hash0 ((1 + 1) % 2 ^ 32) = 3 ∧
    hash0 1 ^^^ hash0 ((1 + 1) % 2 ^ 32) ≠ 1 :=
  ⟨by norm_num, by decide, by decide⟩

/-- C11 (amended): for every 32-bit `x`, incrementing the argument of `hash0`
by 1 (modulo `2^32`) always flips the low bit of the hash, and it flips only
the low bit, `hash0(x) XOR hash0(x + 1) = 1`, exactly when `x` is even. -/
theorem hash0_incr_xor (x : Nat) (hx : x < 2 ^ 32) :
    (hash0 x ^^^ hash0 ((x + 1) % 2 ^ 32)) % 2 = 1 ∧
    (hash0 x ^^^ hash0 ((x + 1) % 2 ^ 32) = 1 ↔ x % 2 = 0) := by
  unfold hash0
  refine ⟨?_, ?_, ?_⟩
  · rw [Nat.xor_mod_two_eq]
    omega
  · intro h
    by_contra hodd
    have h2 := xor_succ_testBit_one_of_odd x hx hodd
    rw [h] at h2
    exact absurd h2 (by decide)
  · intro h
    have hw : x + 1 < 2 ^ 32 := by omega
    rw [Nat.mod_eq_of_lt hw]
    exact xor_succ_of_even x h

theorem hash0_incr_xor_witness :
    (6 : Nat) < 2 ^ 32 ∧
    (hash0 6 ^^^ hash0 ((6 + 1) % 2 ^ 32)) % 2 = 1 ∧
    (hash0 6 ^^^ hash0 ((6 + 1) % 2 ^ 32) = 1 ↔ 6 % 2 = 0) :=
  ⟨by norm_num, hash0_incr_xor 6 (by norm_num)⟩

/-- C12: with the four bytes of `x` read in little-endian memory order,
`hash_int(x) = hash3(x)` for every 32-bit `x`. -/
theorem hash_int_eq_hash3 (x : Nat) (hx : x < 2 ^ 32) :
    hash_int uint32_bytes_le x = hash3 x := by
  have h8 : x >>> 8 = x / 256 := Nat.shiftRight_eq_div_pow x 8
  have h16 : x >>> 16 = x / 65536 := Nat.shiftRight_eq_div_pow x 16
  have h24 : x >>> 24 = x / 16777216 := Nat.shiftRight_eq_div_pow x 24
  unfold hash_int hash3 uint32_bytes_le
  simp only [and_255_eq_mod, h8, h16, h24, List.getD_cons_zero, List.getD_cons_succ]

theorem hash_int_eq_hash3_witness :
    (305419896 : Nat) < 2 ^ 32 ∧
    hash_int uint32_bytes_le 305419896 = hash3 305419896 :=
  ⟨by norm_num, hash_int_eq_hash3 305419896 (by norm_num)⟩

/-- C16: for every `x`, `hash5(x)` is the 32-bit FNV-1a fold over the four
bytes of `x` taken least significant first, starting from `2166136261`, and
`hash3(x)` is the corresponding fold of the linear congruential step starting
from `0`. -/
theorem hash5_eq_fnv1a_and_hash3_eq_fold (x : Nat) :
    hash5 x = hash5_spec x ∧ hash3 x = hash3_spec x := by
  constructor
  · unfold hash5 hash5_spec bytes_lsb_first fnv1a_step
    simp only [List.foldl]
    rw [Nat.mul_comm 16777619, Nat.mul_comm 16777619, Nat.mul_comm 16777619,
      Nat.mul_comm 16777619]
  · unfold hash3_spec bytes_lsb_first
    rw [List.foldl_cons, List.foldl_cons, List.foldl_cons, List.foldl_cons,
      List.foldl_nil]
    unfold lcg_step hash3
    exact Eq.refl _

theorem hash_int_big_endian_differs : hash_int uint32_bytes_be 1 ≠ hash3 1 := by
  decide

/-! ## Lemmas: `hash1` and `hash4` modulo powers of two -/

theorem hash1_eq (x : Nat) : hash1 x = (1664525 * x + 1013904223) % 2 ^ 32 := rfl

theorem hash1_lt (x : Nat) : hash1 x < 2 ^ 32 := by
  rw [hash1_eq]; omega

theorem hash1_inv_lt (z : Nat) : hash1_inv z < 2 ^ 32 := by
  unfold hash1_inv; omega

theorem hash1_inv_hash1 (x : Nat) (hx : x < 2 ^ 32) : hash1_inv (hash1 x) = x := by
  rw [hash1_eq]
  unfold hash1_inv
  omega

theorem hash1_hash1_inv (z : Nat) (hz : z < 2 ^ 32) : hash1 (hash1_inv z) = z := by
  rw [hash1_eq]
  unfold hash1_inv
  omega

theorem pow_dvd_two_pow_32 (k : Nat) (hk : k ≤ 32) : 2 ^ k ∣ 2 ^ 32 :=
  pow_dvd_pow 2 hk

theorem hash1_mod_two_pow (k x : Nat) (hk : k ≤ 32) :
    hash1 x % 2 ^ k = (1664525 * x + 1013904223) % 2 ^ k := by
  rw [hash1_eq]
  exact Nat.mod_mod_of_dvd _ (pow_dvd_two_pow_32 k hk)

theorem hash1_inv_mod_two_pow (k z : Nat) (hk : k ≤ 32) :
    hash1_inv z % 2 ^ k = (4276115653 * (z + (2 ^ 32 - 1013904223))) % 2 ^ k := by
  unfold hash1_inv
  exact Nat.mod_mod_of_dvd _ (pow_dvd_two_pow_32 k hk)

theorem hash1_low_bits (k x y : Nat) (hk : k ≤ 32) (h : x % 2 ^ k = y % 2 ^ k) :
    hash1 x % 2 ^ k = hash1 y % 2 ^ k := by
  rw [hash1_mod_two_pow k x hk, hash1_mod_two_pow k y hk]
  have hxy : x ≡ y [MOD 2 ^ k] := h
  exact (hxy.mul_left 1664525).add_right 1013904223

theorem hash1_inv_low_bits (k x y : Nat) (hk : k ≤ 32) (h : x % 2 ^ k = y % 2 ^ k) :
    hash1_inv x % 2 ^ k = hash1_inv y % 2 ^ k := by
  rw [hash1_inv_mod_two_pow k x hk, hash1_inv_mod_two_pow k y hk]
  have hxy : x ≡ y [MOD 2 ^ k] := h
  exact (hxy.add_right (2 ^ 32 - 1013904223)).mul_left 4276115653

theorem two_pow_le_32 (k : Nat) (hk : k ≤ 32) : 2 ^ k ≤ 2 ^ 32 :=
  Nat.pow_le_pow_right (by norm_num) hk

theorem hash4_eq (x : Nat) : hash4 x = (x * (x + 1013904223)) % 2 ^ 32 := by
  unfold hash4
  rw [Nat.mul_mod, Nat.mod_mod, ← Nat.mul_mod]

theorem hash4_even (x : Nat) : hash4 x % 2 = 0 := by
  unfold hash4
  have hy : ((x + 1013904223) % 2 ^ 32) % 2 = (x + 1) % 2 := by omega
  have hm : (x * ((x + 1013904223) % 2 ^ 32)) % 2 = 0 := by
    rw [Nat.mul_mod, hy]
    rcases Nat.mod_two_eq_zero_or_one x with h | h
    · rw [h, Nat.zero_mul]
    · have h1 : (x + 1) % 2 = 0 := by omega
      rw [h1, Nat.mul_zero]
  omega

/-! ## Theorems: `hash1` and `hash4` -/

/-- C13: `hash1(x) = (1664525 * x + 1013904223) mod 2^32`, and `hash1` is a
permutation of the 32-bit unsigned integers: for 32-bit `x`, `y`,
`hash1(x) = hash1(y)` implies `x = y`, and every 32-bit `y` is the hash of some
32-bit value. -/
theorem hash1_permutation (x y : Nat) (hx : x < 2 ^ 32) (hy : y < 2 ^ 32) :
    hash1 x = (1664525 * x + 1013904223) % 2 ^ 32 ∧
    (hash1 x = hash1 y → x = y) ∧
    (∃ w, w < 2 ^ 32 ∧ hash1 w = y) := by
  refine ⟨rfl, ?_, hash1_inv y, hash1_inv_lt y, hash1_hash1_inv y hy⟩
  intro h
  rw [← hash1_inv_hash1 x hx, ← hash1_inv_hash1 y hy, h]

theorem hash1_permutation_witness :
    (7 : Nat) < 2 ^ 32 ∧ (4000000000 : Nat) < 2 ^ 32 ∧
    hash1 7 = (1664525 * 7 + 1013904223) % 2 ^ 32 ∧
    (hash1 7 = hash1 4000000000 → 7 = 4000000000) ∧
    (∃ w, w < 2 ^ 32 ∧ hash1 w = 4000000000) :=
  ⟨by norm_num, by norm_num, hash1_permutation 7 4000000000 (by norm_num) (by norm_num)⟩

/-- C14: for every 32-bit `x`, `hash4(x) = (x * (x + 1013904223)) mod 2^32` is
even; so for `nbits >= 1` the masked hash `hash4(x) mod 2^nbits` is twice some
`j < 2^(nbits-1)`, the masked hashes of all 32-bit values fill at most half of
the `2^nbits` buckets, and `hash4` is not injective:
`hash4(0) = hash4(3281063073) = 0`. -/
theorem hash4_low_bit (x nbits : Nat) (hx : x < 2 ^ 32) (h1 : 1 ≤ nbits) :
    hash4 x = (x * (x + 1013904223)) % 2 ^ 32 ∧
    hash4 x % 2 = 0 ∧
    (∃ j, j < 2 ^ (nbits - 1) ∧ hash4 x % 2 ^ nbits = 2 * j) ∧
    2 * ((Finset.range (2 ^ 32)).image (fun v => hash4 v % 2 ^ nbits)).card ≤ 2 ^ nbits ∧
    ((0 : Nat) < 2 ^ 32 ∧ (3281063073 : Nat) < 2 ^ 32 ∧ (0 : Nat) ≠ 3281063073 ∧
      hash4 0 = 0 ∧ hash4 3281063073 = 0) := by
  have hpow : 2 ^ nbits = 2 * 2 ^ (nbits - 1) := by
    obtain ⟨m, rfl⟩ : ∃ m, nbits = m + 1 := ⟨nbits - 1, by omega⟩
    rw [Nat.add_sub_cancel, pow_succ, Nat.mul_comm]
  have hhalf : ∀ v, ∃ j, j < 2 ^ (nbits - 1) ∧ hash4 v % 2 ^ nbits = 2 * j := by
    intro v
    have he := hash4_even v
    have hlt : hash4 v % 2 ^ nbits < 2 ^ nbits := Nat.mod_lt _ (pow_pos (by norm_num) nbits)
    have hev : (hash4 v % 2 ^ nbits) % 2 = 0 := by
      rw [hpow, Nat.mod_mul_right_mod]
      exact he
    refine ⟨(hash4 v % 2 ^ nbits) / 2, ?_, ?_⟩
    · omega
    · omega
  refine ⟨hash4_eq x, hash4_even x, hhalf x, ?_, by norm_num, by norm_num, by norm_num,
    by decide, by decide⟩
  have hsub : (Finset.range (2 ^ 32)).image (fun v => hash4 v % 2 ^ nbits) ⊆
      (Finset.range (2 ^ (nbits - 1))).image (fun j => 2 * j) := by
    intro z hz
    rw [Finset.mem_image] at hz
    obtain ⟨v, _, rfl⟩ := hz
    obtain ⟨j, hj, hjeq⟩ := hhalf v
    rw [Finset.mem_image]
    exact ⟨j, Finset.mem_range.mpr hj, hjeq.symm⟩
  have hcard := (Finset.card_le_card hsub).trans Finset.card_image_le
  rw [Finset.card_range] at hcard
  omega

theorem hash4_low_bit_witness :
    (12345 : Nat) < 2 ^ 32 ∧ 1 ≤ 16 ∧
    hash4 12345 = (12345 * (12345 + 1013904223)) % 2 ^ 32 ∧
    hash4 12345 % 2 = 0 ∧
    (∃ j, j < 2 ^ (16 - 1) ∧ hash4 12345 % 2 ^ 16 = 2 * j) ∧
    2 * ((Finset.range (2 ^ 32)).image (fun v => hash4 v % 2 ^ 16)).card ≤ 2 ^ 16 ∧
    ((0 : Nat) < 2 ^ 32 ∧ (3281063073 : Nat) < 2 ^ 32 ∧ (0 : Nat) ≠ 3281063073 ∧
      hash4 0 = 0 ∧ hash4 3281063073 = 0) :=
  ⟨by norm_num, by norm_num, hash4_low_bit 12345 16 (by norm_num) (by norm_num)⟩

/-- C15: for every `k <= 32`, the low `k` bits of `hash1` depend only on the low
`k` bits of its argument; consequently `x -> hash1(x) mod 2^k` restricted to
`0 <= x < 2^k` is injective and reaches every one of the `2^k` buckets. -/
theorem hash1_low_bits_bijection (k x y : Nat) (hk : k ≤ 32) :
    (x % 2 ^ k = y % 2 ^ k → hash1 x % 2 ^ k = hash1 y % 2 ^ k) ∧
    (x < 2 ^ k → y < 2 ^ k → hash1 x % 2 ^ k = hash1 y % 2 ^ k → x = y) ∧
    (y < 2 ^ k → ∃ w, w < 2 ^ k ∧ hash1 w % 2 ^ k = y) := by
  have hle := two_pow_le_32 k hk
  have hpos : 0 < 2 ^ k := pow_pos (by norm_num) k
  refine ⟨hash1_low_bits k x y hk, ?_, ?_⟩
  · intro hx hy h
    have h2 := hash1_inv_low_bits k (hash1 x) (hash1 y) hk h
    rw [hash1_inv_hash1 x (by omega), hash1_inv_hash1 y (by omega),
      Nat.mod_eq_of_lt hx, Nat.mod_eq_of_lt hy] at h2
    exact h2
  · intro hy
    refine ⟨hash1_inv y % 2 ^ k, Nat.mod_lt _ hpos, ?_⟩
    rw [hash1_low_bits k (hash1_inv y % 2 ^ k) (hash1_inv y) hk (Nat.mod_mod _ _),
      hash1_hash1_inv y (by omega), Nat.mod_eq_of_lt hy]

theorem hash1_low_bits_bijection_witness :
    16 ≤ 32 ∧
    (5 % 2 ^ 16 = 65541 % 2 ^ 16 → hash1 5 % 2 ^ 16 = hash1 65541 % 2 ^ 16) ∧
    (5 < 2 ^ 16 → 65541 < 2 ^ 16 → hash1 5 % 2 ^ 16 = hash1 65541 % 2 ^ 16 →
      5 = 65541) ∧
    (65541 < 2 ^ 16 → ∃ w, w < 2 ^ 16 ∧ hash1 w % 2 ^ 16 = 65541) :=
  ⟨by norm_num, hash1_low_bits_bijection 16 5 65541 (by norm_num)⟩

end Endterm
